import Mathlib

/-!
Shallow embedding of `main.py` of the ffmpeg_for_n8n service: an HTTP endpoint
that converts an uploaded AAC audio file to an MP4 video built from a fixed
`logo.png` image, optionally adding SRT subtitles (hard-burned or as a soft
selectable track), running ffmpeg as an external process and cleaning up all
scratch files on every exit path.

The filesystem is modelled as the set of existing paths (a `List String`).
Nondeterministic effects (each upload-save outcome, ffmpeg exit code, stderr,
whether ffmpeg created the output file) are supplied by a `Scenario` record.
-/

namespace FfmpegForN8n

/-- `TEMP_DIR = Path("temp_files")`: the scratch directory for job artifacts. -/
def TEMP_DIR : String := "temp_files"

/-- `LOGO_PATH = Path("logo.png")`: the fixed process-wide image asset. -/
def LOGO_PATH : String := "logo.png"

/-- Adding a path to the filesystem set (writing a file creates it; `open(.., "wb")`
overwrites, so re-creating an existing path leaves the set unchanged). -/
def insertPath (p : String) (fs : List String) : List String :=
  if p ∈ fs then fs else p :: fs

/-- `Path.unlink`: deleting a missing path raises (`FileNotFoundError`);
deleting an existing one removes it from the filesystem set. -/
def unlink (p : String) (fs : List String) : Except String (List String) :=
  if p ∈ fs then Except.ok (fs.filter (fun q => q ≠ p))
  else Except.error ("FileNotFoundError: " ++ p)

/-- `cleanup_files(paths)`: `for path in paths: if path and path.exists(): path.unlink()`.
A `none` entry models a Python `None` (falsy, skipped by `if path`). -/
def cleanup_files : List (Option String) → List String → Except String (List String)
  | [], fs => Except.ok fs
  | none :: rest, fs => cleanup_files rest fs
  | some p :: rest, fs =>
    if p ∈ fs then
      match unlink p fs with
      | Except.ok fs2 => cleanup_files rest fs2
      | Except.error e => Except.error e
    else cleanup_files rest fs

/-- Total wrapper around `cleanup_files` (it never raises, as proved below). -/
def runCleanup (paths : List (Option String)) (fs : List String) : List String :=
  match cleanup_files paths fs with
  | Except.ok fs2 => fs2
  | Except.error _ => fs

/-- First pass of `escape_ffmpeg_path`: `path_str.replace("\\", "/")`. With a
single-character pattern this is exactly a character map. -/
def slashChars (cs : List Char) : List Char :=
  cs.map (fun c => if c = '\\' then '/' else c)

/-- Second pass of `escape_ffmpeg_path`: `.replace(":", "\\:")`. Each colon becomes
a backslash followed by a colon. -/
def escapeColons : List Char → List Char
  | [] => []
  | c :: rest => if c = ':' then '\\' :: ':' :: escapeColons rest else c :: escapeColons rest

/-- `escape_ffmpeg_path`: backslashes become forward slashes, then each colon is
prefixed with a backslash (`path_str.replace("\\", "/").replace(":", "\\:")`). -/
def escape_ffmpeg_path (path_str : String) : String :=
  String.mk (escapeColons (slashChars path_str.data))

/-- Python whitespace, as stripped by `str.strip()`. -/
def pyIsSpace (c : Char) : Bool :=
  c = ' ' || c = '\t' || c = '\n' || c = '\r' || c = '\x0b' || c = '\x0c'

/-- `stderr.decode().strip()`: remove leading and trailing whitespace. -/
def strip (s : String) : String :=
  String.mk (((s.data.dropWhile pyIsSpace).reverse.dropWhile pyIsSpace).reverse)

/-- `TEMP_DIR / f"{job_id}_{name}"`: the scratch path the endpoint allocates. -/
def allocPath (jobId name : String) : String :=
  TEMP_DIR ++ "/" ++ jobId ++ "_" ++ name

/-- One conversion request: the generated job id, the uploaded filenames and the
subtitle mode query parameter. -/
structure Job where
  jobId : String
  audioName : String
  subtitleName : Option String
  subtitleMode : String
deriving DecidableEq

/-- Outcome of one `_save_upload_file` call (lines 154-158 of `main.py`). The body
is `contents = await upload_file.read()` followed by `open(destination, "wb")`
and `f.write(contents)`, so there are three cases: success; an exception raised
by `read()` before the destination is opened (no file created); and an exception
raised by `f.write` after `open(destination, "wb")` has already created the
destination file on disk. -/
inductive SaveResult where
  | ok : SaveResult
  | failNoFile : SaveResult
  | failAfterCreate : SaveResult
deriving DecidableEq

/-- The environment choices one run of the endpoint can encounter: how each upload
save turns out, the ffmpeg exit code and stderr, and whether ffmpeg created the
output file. -/
structure Scenario where
  audioSave : SaveResult
  srtSave : SaveResult
  saveErrMsg : String
  exitCode : Nat
  stderrText : String
  outputCreated : Bool
deriving DecidableEq

/-- The HTTP-level result: a `FileResponse` (path, media type, download filename,
background cleanup task argument) or an `HTTPException` (status, detail). -/
inductive Response where
  | fileResponse (path mediaType filename : String) (background : List (Option String)) : Response
  | httpError (status : Nat) (detail : String) : Response
deriving DecidableEq

/-- Whether a response is an error (the FAILED branch). -/
def Response.isError : Response → Bool
  | Response.httpError _ _ => true
  | Response.fileResponse _ _ _ _ => false

/-- Observable outcome of one run: the response, the filesystem at the moment the
handler returns (before any background task runs), the final value of the
`files_to_clean` list, and the scratch paths actually created during the run. -/
structure Outcome where
  response : Response
  fs : List String
  filesToClean : List (Option String)
  created : List String
deriving DecidableEq

/-- `Path(name).stem` restricted to the final component: the characters after the
last `/`. -/
def basenameChars (cs : List Char) : List Char :=
  (cs.reverse.takeWhile (fun c => c ≠ '/')).reverse

/-- Index of the last `.` in the character list, if any. -/
def lastDotIdx (cs : List Char) : Option Nat :=
  (List.range cs.length).foldl
    (fun acc i => if cs.getD i ' ' = '.' then some i else acc) none

/-- `Path(name).stem`: the final component without its suffix; the suffix starts at
the last dot provided that dot is neither the first nor the last character. -/
def stem (name : String) : String :=
  let cs := basenameChars name.data
  match lastDotIdx cs with
  | some i => if 0 < i ∧ i + 1 < cs.length then String.mk (cs.take i) else String.mk cs
  | none => String.mk cs

/-- The audio scratch path `TEMP_DIR / f"{job_id}_{audio_file.filename}"`. -/
def audioPathOf (job : Job) : String := allocPath job.jobId job.audioName

/-- The output scratch path `TEMP_DIR / f"{job_id}_output.mp4"`. -/
def outputPathOf (job : Job) : String := allocPath job.jobId "output.mp4"

/-- The subtitle scratch path, when a subtitle file was uploaded. -/
def srtPathOf (job : Job) : Option String :=
  job.subtitleName.map (fun s => allocPath job.jobId s)

/-- The ffmpeg argument vector, exactly as built in lines 97-124 of `main.py`. -/
def build_cmd (logoPath aacPath : String) (srtPath : Option String)
    (mode outPath : String) : List String :=
  ["ffmpeg"]
    ++ ["-loop", "1", "-i", logoPath]
    ++ ["-i", aacPath]
    ++ (match srtPath with
        | some p => if mode = "soft" then ["-i", p] else []
        | none => [])
    ++ ["-c:v", "libx264", "-tune", "stillimage", "-pix_fmt", "yuv420p"]
    ++ ["-c:a", "copy"]
    ++ (match srtPath with
        | some p =>
          if mode = "hard" then ["-vf", "subtitles=" ++ escape_ffmpeg_path p]
          else ["-c:s", "mov_text", "-metadata:s:s:0", "language=eng"]
        | none => [])
    ++ ["-shortest"]
    ++ ["-y", outPath]

/-- The argument vector the endpoint builds for a given job. -/
def jobCmd (job : Job) : List String :=
  build_cmd LOGO_PATH (audioPathOf job) (srtPathOf job) job.subtitleMode (outputPathOf job)

/-- All scratch paths a job references (audio input, optional subtitle input, output). -/
def jobPaths (job : Job) : List String :=
  [audioPathOf job]
    ++ (match job.subtitleName with
        | some s => [allocPath job.jobId s]
        | none => [])
    ++ [outputPathOf job]

/-- The `files_to_clean` list as it stands when the job completes all saves and the
output path has been appended: audio input, optional subtitle input, output. -/
def jobCleanupList (job : Job) : List (Option String) :=
  [some (audioPathOf job)]
    ++ (match job.subtitleName with
        | some s => [some (allocPath job.jobId s)]
        | none => [])
    ++ [some (outputPathOf job)]

/-- The transcode-and-respond stage (lines 93-151 of `main.py`), entered once all
uploads are saved: append the output path to `files_to_clean`, run ffmpeg, then
either raise the 500 with trimmed stderr (cleanup first via the except-handler)
or return the `FileResponse` with the background cleanup task. -/
def runTranscodeStage (job : Job) (sc : Scenario) (fs : List String)
    (created : List String) (filesToClean : List (Option String)) : Outcome :=
  let outPath := outputPathOf job
  let clean2 := filesToClean ++ [some outPath]
  let fs2 := if sc.outputCreated then insertPath outPath fs else fs
  let created2 := if sc.outputCreated then created ++ [outPath] else created
  if sc.exitCode ≠ 0 then
    { response := Response.httpError 500 ("FFmpeg conversion failed: " ++ strip sc.stderrText),
      fs := runCleanup clean2 fs2,
      filesToClean := clean2,
      created := created2 }
  else
    { response := Response.fileResponse outPath "video/mp4"
        ("converted_" ++ stem job.audioName ++ ".mp4") clean2,
      fs := fs2,
      filesToClean := clean2,
      created := created2 }

/-- The endpoint `convert_to_mp4_with_subtitles`: save the audio upload, save the
optional subtitle upload, build the command, run ffmpeg, and respond; any
exception triggers `cleanup_files(files_to_clean)` and a 500. Each path is
appended to `files_to_clean` only after its save returns (lines 85 and 91), so a
save that raises in `f.write` after `open()` created the destination
(`SaveResult.failAfterCreate`) leaves a created file that is not in the cleanup
list the except-handler passes to `cleanup_files`. -/
def convert_to_mp4_with_subtitles (job : Job) (sc : Scenario) (fs0 : List String) : Outcome :=
  let aacPath := audioPathOf job
  match sc.audioSave with
  | SaveResult.failNoFile =>
    { response := Response.httpError 500 sc.saveErrMsg,
      fs := runCleanup [] fs0,
      filesToClean := [],
      created := [] }
  | SaveResult.failAfterCreate =>
    { response := Response.httpError 500 sc.saveErrMsg,
      fs := runCleanup [] (insertPath aacPath fs0),
      filesToClean := [],
      created := [aacPath] }
  | SaveResult.ok =>
    let fs1 := insertPath aacPath fs0
    match job.subtitleName with
    | some sname =>
      let srtPath := allocPath job.jobId sname
      match sc.srtSave with
      | SaveResult.failNoFile =>
        { response := Response.httpError 500 sc.saveErrMsg,
          fs := runCleanup [some aacPath] fs1,
          filesToClean := [some aacPath],
          created := [aacPath] }
      | SaveResult.failAfterCreate =>
        { response := Response.httpError 500 sc.saveErrMsg,
          fs := runCleanup [some aacPath] (insertPath srtPath fs1),
          filesToClean := [some aacPath],
          created := [aacPath, srtPath] }
      | SaveResult.ok =>
        runTranscodeStage job sc (insertPath srtPath fs1)
          [aacPath, srtPath] [some aacPath, some srtPath]
    | none =>
      runTranscodeStage job sc fs1 [aacPath] [some aacPath]

/-- `chunk` occurs contiguously, in order, inside `cmd`. -/
def ContainsSeq (cmd chunk : List String) : Prop :=
  ∃ pre suf, cmd = pre ++ (chunk ++ suf)

/-! ### Basic lemmas about cleanup -/

/-- `cleanup_files` never raises, and the surviving paths are exactly the previously
existing paths not listed for deletion. -/
theorem cleanup_files_spec (paths : List (Option String)) (fs : List String) :
    ∃ fs2, cleanup_files paths fs = Except.ok fs2 ∧
      ∀ q, q ∈ fs2 ↔ (q ∈ fs ∧ some q ∉ paths) := by
  induction paths generalizing fs with
  | nil => exact ⟨fs, rfl, by simp⟩
  | cons head rest ih =>
    cases head with
    | none =>
      obtain ⟨fs2, h1, h2⟩ := ih fs
      exact ⟨fs2, by simpa [cleanup_files] using h1, by intro q; rw [h2]; simp⟩
    | some p =>
      by_cases hp : p ∈ fs
      · obtain ⟨fs2, h1, h2⟩ := ih (fs.filter (fun q => q ≠ p))
        refine ⟨fs2, ?_, ?_⟩
        · simpa [cleanup_files, hp, unlink] using h1
        · intro q
          rw [h2]
          simp only [List.mem_filter, decide_eq_true_eq, List.mem_cons, not_or]
          constructor
          · rintro ⟨⟨hf, hne⟩, hr⟩
            exact ⟨hf, by simpa using hne, hr⟩
          · rintro ⟨hf, hne, hr⟩
            exact ⟨⟨hf, by simpa using hne⟩, hr⟩
      · obtain ⟨fs2, h1, h2⟩ := ih fs
        refine ⟨fs2, by simp [cleanup_files, hp, h1], ?_⟩
        intro q
        rw [h2]
        simp only [List.mem_cons, not_or]
        constructor
        · rintro ⟨hf, hr⟩
          refine ⟨hf, ?_, hr⟩
          intro he
          injection he with hqp
          exact hp (hqp ▸ hf)
        · rintro ⟨hf, _, hr⟩
          exact ⟨hf, hr⟩

/-- Membership in the filesystem after `runCleanup`. -/
theorem runCleanup_mem (paths : List (Option String)) (fs : List String) (q : String) :
    q ∈ runCleanup paths fs ↔ (q ∈ fs ∧ some q ∉ paths) := by
  obtain ⟨fs2, h1, h2⟩ := cleanup_files_spec paths fs
  rw [runCleanup, h1]
  exact h2 q

/-! ### String helper lemmas -/

/-- Appending strings appends their character data. -/
theorem data_append (s t : String) : (s ++ t).data = s.data ++ t.data := by
  cases s; cases t; rfl

/-- Every allocated scratch path starts with the character `t` of `temp_files/`. -/
theorem allocPath_data_head (j n : String) : (allocPath j n).data.head? = some 't' := by
  cases j; cases n; rfl

/-- Every hard-subtitle filter argument starts with the character `s`. -/
theorem subtitles_arg_head (e : String) : ("subtitles=" ++ e).data.head? = some 's' := by
  cases e; rfl

/-- Strings whose first characters differ are different. -/
theorem ne_of_data_head (s t : String) (h : s.data.head? ≠ t.data.head?) : s ≠ t :=
  fun he => h (by rw [he])

/-- A scratch path never equals a dash-initial ffmpeg flag. -/
theorem allocPath_ne_flag (j n f : String) (hf : f.data.head? = some '-') :
    allocPath j n ≠ f :=
  ne_of_data_head _ _ (by rw [allocPath_data_head, hf]; decide)

/-- A hard-subtitle filter argument never equals a dash-initial ffmpeg flag. -/
theorem subtitles_arg_ne_flag (e f : String) (hf : f.data.head? = some '-') :
    "subtitles=" ++ e ≠ f :=
  ne_of_data_head _ _ (by rw [subtitles_arg_head, hf]; decide)

/-! ### Shape of the built argument vector -/

/-- With a subtitle and mode `hard`: no third input, and a `-vf subtitles=` filter. -/
theorem jobCmd_hard_shape (job : Job) (s : String)
    (h1 : job.subtitleName = some s) (h2 : job.subtitleMode = "hard") :
    jobCmd job =
      ["ffmpeg", "-loop", "1", "-i", "logo.png", "-i"] ++ [audioPathOf job]
        ++ ["-c:v", "libx264", "-tune", "stillimage", "-pix_fmt", "yuv420p",
            "-c:a", "copy", "-vf"]
        ++ ["subtitles=" ++ escape_ffmpeg_path (allocPath job.jobId s)]
        ++ ["-shortest", "-y"] ++ [outputPathOf job] := by
  simp [jobCmd, build_cmd, srtPathOf, h1, h2, LOGO_PATH]

/-- With a subtitle and mode `soft`: the subtitle is a third `-i` input and the
`mov_text` codec plus language metadata are appended. -/
theorem jobCmd_soft_shape (job : Job) (s : String)
    (h1 : job.subtitleName = some s) (h2 : job.subtitleMode = "soft") :
    jobCmd job =
      ["ffmpeg", "-loop", "1", "-i", "logo.png", "-i"] ++ [audioPathOf job]
        ++ ["-i"] ++ [allocPath job.jobId s]
        ++ ["-c:v", "libx264", "-tune", "stillimage", "-pix_fmt", "yuv420p",
            "-c:a", "copy", "-c:s", "mov_text", "-metadata:s:s:0", "language=eng",
            "-shortest", "-y"]
        ++ [outputPathOf job] := by
  simp [jobCmd, build_cmd, srtPathOf, h1, h2, LOGO_PATH]

/-- With a subtitle and a mode that is neither `hard` nor `soft`: the soft codec
arguments are appended but the subtitle is not passed as an input. -/
theorem jobCmd_other_shape (job : Job) (s : String)
    (h1 : job.subtitleName = some s) (hh : job.subtitleMode ≠ "hard")
    (hs : job.subtitleMode ≠ "soft") :
    jobCmd job =
      ["ffmpeg", "-loop", "1", "-i", "logo.png", "-i"] ++ [audioPathOf job]
        ++ ["-c:v", "libx264", "-tune", "stillimage", "-pix_fmt", "yuv420p",
            "-c:a", "copy", "-c:s", "mov_text", "-metadata:s:s:0", "language=eng",
            "-shortest", "-y"]
        ++ [outputPathOf job] := by
  simp [jobCmd, build_cmd, srtPathOf, h1, hh, hs, LOGO_PATH]

/-- Without a subtitle: plain logo plus audio conversion. -/
theorem jobCmd_none_shape (job : Job) (h1 : job.subtitleName = none) :
    jobCmd job =
      ["ffmpeg", "-loop", "1", "-i", "logo.png", "-i"] ++ [audioPathOf job]
        ++ ["-c:v", "libx264", "-tune", "stillimage", "-pix_fmt", "yuv420p",
            "-c:a", "copy", "-shortest", "-y"]
        ++ [outputPathOf job] := by
  simp [jobCmd, build_cmd, srtPathOf, h1, LOGO_PATH]

/-! ### Fixed chunks present in every built argument vector -/

/-- The logo image is always passed loop-decoded: `-loop 1 -i logo.png`. -/
theorem jobCmd_contains_loop (job : Job) :
    ContainsSeq (jobCmd job) ["-loop", "1", "-i", "logo.png"] := by
  cases hsub : job.subtitleName with
  | none =>
    rw [jobCmd_none_shape job hsub]
    exact ⟨["ffmpeg"], ["-i", audioPathOf job, "-c:v", "libx264", "-tune", "stillimage",
      "-pix_fmt", "yuv420p", "-c:a", "copy", "-shortest", "-y", outputPathOf job], by simp⟩
  | some s =>
    by_cases hhard : job.subtitleMode = "hard"
    · rw [jobCmd_hard_shape job s hsub hhard]
      exact ⟨["ffmpeg"], ["-i", audioPathOf job, "-c:v", "libx264", "-tune", "stillimage",
        "-pix_fmt", "yuv420p", "-c:a", "copy", "-vf",
        "subtitles=" ++ escape_ffmpeg_path (allocPath job.jobId s),
        "-shortest", "-y", outputPathOf job], by simp⟩
    · by_cases hsoft : job.subtitleMode = "soft"
      · rw [jobCmd_soft_shape job s hsub hsoft]
        exact ⟨["ffmpeg"], ["-i", audioPathOf job, "-i", allocPath job.jobId s,
          "-c:v", "libx264", "-tune", "stillimage", "-pix_fmt", "yuv420p", "-c:a", "copy",
          "-c:s", "mov_text", "-metadata:s:s:0", "language=eng",
          "-shortest", "-y", outputPathOf job], by simp⟩
      · rw [jobCmd_other_shape job s hsub hhard hsoft]
        exact ⟨["ffmpeg"], ["-i", audioPathOf job, "-c:v", "libx264", "-tune", "stillimage",
          "-pix_fmt", "yuv420p", "-c:a", "copy",
          "-c:s", "mov_text", "-metadata:s:s:0", "language=eng",
          "-shortest", "-y", outputPathOf job], by simp⟩

/-- The video is always encoded: `-c:v libx264` is in every vector. -/
theorem jobCmd_contains_videoCodec (job : Job) :
    ContainsSeq (jobCmd job) ["-c:v", "libx264"] := by
  cases hsub : job.subtitleName with
  | none =>
    rw [jobCmd_none_shape job hsub]
    exact ⟨["ffmpeg", "-loop", "1", "-i", "logo.png", "-i", audioPathOf job],
      ["-tune", "stillimage", "-pix_fmt", "yuv420p", "-c:a", "copy",
       "-shortest", "-y", outputPathOf job], by simp⟩
  | some s =>
    by_cases hhard : job.subtitleMode = "hard"
    · rw [jobCmd_hard_shape job s hsub hhard]
      exact ⟨["ffmpeg", "-loop", "1", "-i", "logo.png", "-i", audioPathOf job],
        ["-tune", "stillimage", "-pix_fmt", "yuv420p", "-c:a", "copy", "-vf",
         "subtitles=" ++ escape_ffmpeg_path (allocPath job.jobId s),
         "-shortest", "-y", outputPathOf job], by simp⟩
    · by_cases hsoft : job.subtitleMode = "soft"
      · rw [jobCmd_soft_shape job s hsub hsoft]
        exact ⟨["ffmpeg", "-loop", "1", "-i", "logo.png", "-i", audioPathOf job,
          "-i", allocPath job.jobId s],
          ["-tune", "stillimage", "-pix_fmt", "yuv420p", "-c:a", "copy",
           "-c:s", "mov_text", "-metadata:s:s:0", "language=eng",
           "-shortest", "-y", outputPathOf job], by simp⟩
      · rw [jobCmd_other_shape job s hsub hhard hsoft]
        exact ⟨["ffmpeg", "-loop", "1", "-i", "logo.png", "-i", audioPathOf job],
          ["-tune", "stillimage", "-pix_fmt", "yuv420p", "-c:a", "copy",
           "-c:s", "mov_text", "-metadata:s:s:0", "language=eng",
           "-shortest", "-y", outputPathOf job], by simp⟩

/-- `-shortest` is in every vector. -/
theorem jobCmd_contains_shortest (job : Job) : "-shortest" ∈ jobCmd job := by
  cases hsub : job.subtitleName with
  | none => rw [jobCmd_none_shape job hsub]; simp
  | some s =>
    by_cases hhard : job.subtitleMode = "hard"
    · rw [jobCmd_hard_shape job s hsub hhard]; simp
    · by_cases hsoft : job.subtitleMode = "soft"
      · rw [jobCmd_soft_shape job s hsub hsoft]; simp
      · rw [jobCmd_other_shape job s hsub hhard hsoft]; simp

/-- The vector always ends with `-y` followed by the output path. -/
theorem jobCmd_contains_overwrite (job : Job) :
    ContainsSeq (jobCmd job) ["-y", outputPathOf job] := by
  cases hsub : job.subtitleName with
  | none =>
    rw [jobCmd_none_shape job hsub]
    exact ⟨["ffmpeg", "-loop", "1", "-i", "logo.png", "-i", audioPathOf job,
      "-c:v", "libx264", "-tune", "stillimage", "-pix_fmt", "yuv420p", "-c:a", "copy",
      "-shortest"], [], by simp⟩
  | some s =>
    by_cases hhard : job.subtitleMode = "hard"
    · rw [jobCmd_hard_shape job s hsub hhard]
      exact ⟨["ffmpeg", "-loop", "1", "-i", "logo.png", "-i", audioPathOf job,
        "-c:v", "libx264", "-tune", "stillimage", "-pix_fmt", "yuv420p", "-c:a", "copy",
        "-vf", "subtitles=" ++ escape_ffmpeg_path (allocPath job.jobId s),
        "-shortest"], [], by simp⟩
    · by_cases hsoft : job.subtitleMode = "soft"
      · rw [jobCmd_soft_shape job s hsub hsoft]
        exact ⟨["ffmpeg", "-loop", "1", "-i", "logo.png", "-i", audioPathOf job,
          "-i", allocPath job.jobId s,
          "-c:v", "libx264", "-tune", "stillimage", "-pix_fmt", "yuv420p", "-c:a", "copy",
          "-c:s", "mov_text", "-metadata:s:s:0", "language=eng", "-shortest"], [], by simp⟩
      · rw [jobCmd_other_shape job s hsub hhard hsoft]
        exact ⟨["ffmpeg", "-loop", "1", "-i", "logo.png", "-i", audioPathOf job,
          "-c:v", "libx264", "-tune", "stillimage", "-pix_fmt", "yuv420p", "-c:a", "copy",
          "-c:s", "mov_text", "-metadata:s:s:0", "language=eng", "-shortest"], [], by simp⟩

/-- The soft codec chunk appears whenever a subtitle is present and the mode is not
`hard` (any non-hard mode falls into the else-branch of the codec choice). -/
theorem jobCmd_soft_chunk_of_not_hard (job : Job) (s : String)
    (h1 : job.subtitleName = some s) (hh : job.subtitleMode ≠ "hard") :
    ContainsSeq (jobCmd job) ["-c:s", "mov_text", "-metadata:s:s:0", "language=eng"] := by
  by_cases hsoft : job.subtitleMode = "soft"
  · rw [jobCmd_soft_shape job s h1 hsoft]
    exact ⟨["ffmpeg", "-loop", "1", "-i", "logo.png", "-i", audioPathOf job,
      "-i", allocPath job.jobId s,
      "-c:v", "libx264", "-tune", "stillimage", "-pix_fmt", "yuv420p", "-c:a", "copy"],
      ["-shortest", "-y", outputPathOf job], by simp⟩
  · rw [jobCmd_other_shape job s h1 hh hsoft]
    exact ⟨["ffmpeg", "-loop", "1", "-i", "logo.png", "-i", audioPathOf job,
      "-c:v", "libx264", "-tune", "stillimage", "-pix_fmt", "yuv420p", "-c:a", "copy"],
      ["-shortest", "-y", outputPathOf job], by simp⟩

/-! ### Path uniqueness helpers -/

/-- Distinct job ids of equal length allocate distinct scratch paths, whatever the
original filenames are. -/
theorem allocPath_ne_of_jobId_ne (j1 j2 n1 n2 : String)
    (hlen : j1.length = j2.length) (hne : j1 ≠ j2) :
    allocPath j1 n1 ≠ allocPath j2 n2 := by
  intro he
  apply hne
  have hd : (allocPath j1 n1).data = (allocPath j2 n2).data := by rw [he]
  simp only [allocPath, TEMP_DIR, data_append, List.append_assoc] at hd
  have hd2 := List.append_cancel_left hd
  have hd3 := List.append_cancel_left hd2
  exact String.ext_iff.mpr (List.append_inj hd3 hlen).1

/-- Every scratch path of a job has the form `allocPath jobId name`. -/
theorem jobPaths_shape (job : Job) (p : String) (hp : p ∈ jobPaths job) :
    ∃ n, p = allocPath job.jobId n := by
  cases hsub : job.subtitleName with
  | none =>
    simp [jobPaths, hsub, audioPathOf, outputPathOf] at hp
    rcases hp with h | h
    · exact ⟨job.audioName, h⟩
    · exact ⟨"output.mp4", h⟩
  | some s =>
    simp [jobPaths, hsub, audioPathOf, outputPathOf] at hp
    rcases hp with h | h | h
    · exact ⟨job.audioName, h⟩
    · exact ⟨s, h⟩
    · exact ⟨"output.mp4", h⟩

/-! ### Claims about the command builder and path allocation -/

/-- C3: for every job with a subtitle file present and subtitle mode `hard`, the
built argument vector contains a `-vf` argument whose value is `subtitles=`
followed by the subtitle path escaped by turning backslashes into forward slashes
and then prefixing every colon with a backslash, and it contains no
subtitle-codec (`-c:s`) or subtitle-metadata (`-metadata:s:s:0`) argument. -/
theorem hard_mode_burns_subtitles (job : Job) (s : String)
    (h1 : job.subtitleName = some s) (h2 : job.subtitleMode = "hard") :
    ContainsSeq (jobCmd job)
        ["-vf", "subtitles=" ++ escape_ffmpeg_path (allocPath job.jobId s)]
      ∧ "-c:s" ∉ jobCmd job ∧ "-metadata:s:s:0" ∉ jobCmd job := by
  refine ⟨?_, ?_, ?_⟩
  · rw [jobCmd_hard_shape job s h1 h2]
    exact ⟨["ffmpeg", "-loop", "1", "-i", "logo.png", "-i", audioPathOf job,
      "-c:v", "libx264", "-tune", "stillimage", "-pix_fmt", "yuv420p", "-c:a", "copy"],
      ["-shortest", "-y", outputPathOf job], by simp⟩
  · rw [jobCmd_hard_shape job s h1 h2]
    intro hmem
    simp only [List.mem_append, or_assoc, List.mem_singleton] at hmem
    rcases hmem with h | h | h | h | h | h
    · exact absurd h (by decide)
    · exact allocPath_ne_flag _ _ _ (by decide) h.symm
    · exact absurd h (by decide)
    · exact subtitles_arg_ne_flag _ _ (by decide) h.symm
    · exact absurd h (by decide)
    · exact allocPath_ne_flag _ _ _ (by decide) h.symm
  · rw [jobCmd_hard_shape job s h1 h2]
    intro hmem
    simp only [List.mem_append, or_assoc, List.mem_singleton] at hmem
    rcases hmem with h | h | h | h | h | h
    · exact absurd h (by decide)
    · exact allocPath_ne_flag _ _ _ (by decide) h.symm
    · exact absurd h (by decide)
    · exact subtitles_arg_ne_flag _ _ (by decide) h.symm
    · exact absurd h (by decide)
    · exact allocPath_ne_flag _ _ _ (by decide) h.symm

/-- Witness for C3 at a concrete job. -/
theorem hard_mode_burns_subtitles_witness :
    ContainsSeq (jobCmd ⟨"j", "a.aac", some "s.srt", "hard"⟩)
        ["-vf", "subtitles=" ++ escape_ffmpeg_path (allocPath "j" "s.srt")]
      ∧ "-c:s" ∉ jobCmd ⟨"j", "a.aac", some "s.srt", "hard"⟩
      ∧ "-metadata:s:s:0" ∉ jobCmd ⟨"j", "a.aac", some "s.srt", "hard"⟩ :=
  hard_mode_burns_subtitles ⟨"j", "a.aac", some "s.srt", "hard"⟩ "s.srt" rfl rfl

/-- C4: for every job with a subtitle file present and subtitle mode `soft`, the
built argument vector passes the saved subtitle file as an additional `-i` input
and contains the `mov_text` subtitle codec and `language=eng` metadata arguments
embedding it as a selectable track, and contains no `-vf` burn-in argument. -/
theorem soft_mode_embeds_subtitles (job : Job) (s : String)
    (h1 : job.subtitleName = some s) (h2 : job.subtitleMode = "soft") :
    ContainsSeq (jobCmd job) ["-i", allocPath job.jobId s]
      ∧ ContainsSeq (jobCmd job) ["-c:s", "mov_text", "-metadata:s:s:0", "language=eng"]
      ∧ "-vf" ∉ jobCmd job := by
  refine ⟨?_, ?_, ?_⟩
  · rw [jobCmd_soft_shape job s h1 h2]
    exact ⟨["ffmpeg", "-loop", "1", "-i", "logo.png", "-i", audioPathOf job],
      ["-c:v", "libx264", "-tune", "stillimage", "-pix_fmt", "yuv420p", "-c:a", "copy",
       "-c:s", "mov_text", "-metadata:s:s:0", "language=eng",
       "-shortest", "-y", outputPathOf job], by simp⟩
  · exact jobCmd_soft_chunk_of_not_hard job s h1 (by simp [h2])
  · rw [jobCmd_soft_shape job s h1 h2]
    intro hmem
    simp only [List.mem_append, or_assoc, List.mem_singleton] at hmem
    rcases hmem with h | h | h | h | h | h
    · exact absurd h (by decide)
    · exact allocPath_ne_flag _ _ _ (by decide) h.symm
    · exact absurd h (by decide)
    · exact allocPath_ne_flag _ _ _ (by decide) h.symm
    · exact absurd h (by decide)
    · exact allocPath_ne_flag _ _ _ (by decide) h.symm

/-- Witness for C4 at a concrete job. -/
theorem soft_mode_embeds_subtitles_witness :
    ContainsSeq (jobCmd ⟨"j", "a.aac", some "s.srt", "soft"⟩) ["-i", allocPath "j" "s.srt"]
      ∧ ContainsSeq (jobCmd ⟨"j", "a.aac", some "s.srt", "soft"⟩)
          ["-c:s", "mov_text", "-metadata:s:s:0", "language=eng"]
      ∧ "-vf" ∉ jobCmd ⟨"j", "a.aac", some "s.srt", "soft"⟩ :=
  soft_mode_embeds_subtitles ⟨"j", "a.aac", some "s.srt", "soft"⟩ "s.srt" rfl rfl

/-- C5: every built argument vector loop-decodes the image input (`-loop 1 -i
logo.png`), contains the `-shortest` flag stopping output when the shortest input
(the audio) ends, and contains the `-y` overwrite flag immediately before the
destination path — regardless of subtitle presence or mode. -/
theorem every_cmd_loops_shortest_overwrites (job : Job) :
    ContainsSeq (jobCmd job) ["-loop", "1", "-i", "logo.png"]
      ∧ "-shortest" ∈ jobCmd job
      ∧ ContainsSeq (jobCmd job) ["-y", outputPathOf job] :=
  ⟨jobCmd_contains_loop job, jobCmd_contains_shortest job, jobCmd_contains_overwrite job⟩

/-- C9: every built argument vector in this variant includes the fixed logo image
as a loop-decoded input and the `libx264` video-encode codec path, so the
audio-only container shape is never produced. -/
theorem every_cmd_has_logo_and_video_codec (job : Job) :
    ContainsSeq (jobCmd job) ["-loop", "1", "-i", LOGO_PATH]
      ∧ ContainsSeq (jobCmd job) ["-c:v", "libx264"] :=
  ⟨jobCmd_contains_loop job, jobCmd_contains_videoCodec job⟩

/-- C6: two jobs with distinct identifiers of equal length (uuid4 strings always
have 36 characters) never share any scratch path, even when the uploaded
original filenames coincide. -/
theorem distinct_jobs_distinct_paths (job1 job2 : Job)
    (hlen : job1.jobId.length = job2.jobId.length) (hne : job1.jobId ≠ job2.jobId) :
    ∀ p1 ∈ jobPaths job1, ∀ p2 ∈ jobPaths job2, p1 ≠ p2 := by
  intro p1 h1 p2 h2
  obtain ⟨n1, rfl⟩ := jobPaths_shape job1 p1 h1
  obtain ⟨n2, rfl⟩ := jobPaths_shape job2 p2 h2
  exact allocPath_ne_of_jobId_ne _ _ _ _ hlen hne

/-- Witness for C6: two concurrent jobs both uploading `clip.aac` get distinct
audio scratch paths. -/
theorem distinct_jobs_distinct_paths_witness :
    allocPath "job-aa" "clip.aac" ≠ allocPath "job-bb" "clip.aac" :=
  distinct_jobs_distinct_paths ⟨"job-aa", "clip.aac", none, "hard"⟩
    ⟨"job-bb", "clip.aac", none, "hard"⟩ (by decide) (by decide)
    (allocPath "job-aa" "clip.aac") (by decide)
    (allocPath "job-bb" "clip.aac") (by decide)

/-- C10 fails as stated: the vector does not depend on the mode only through the
test `mode = "hard"`. The modes `x` and `soft` agree on that test, yet produce
different vectors, because the extra `-i` subtitle input is added only when the
mode is exactly `soft`. -/
theorem mode_dependence_counterexample :
    ((("x" : String) = "hard") ↔ (("soft" : String) = "hard"))
      ∧ jobCmd ⟨"j", "a.aac", some "s.srt", "x"⟩ ≠ jobCmd ⟨"j", "a.aac", some "s.srt", "soft"⟩ := by
  decide

/-- C10 amended: the built argument vector depends on the subtitle mode only
through the pair of tests `mode = "hard"` and `mode = "soft"`; and every non-hard
mode (not only `soft`) receives the selectable-track codec arguments with the
language tag fixed to `eng`. -/
theorem mode_dependence_amended :
    (∀ job1 job2 : Job, job1.jobId = job2.jobId → job1.audioName = job2.audioName →
      job1.subtitleName = job2.subtitleName →
      ((job1.subtitleMode = "hard") ↔ (job2.subtitleMode = "hard")) →
      ((job1.subtitleMode = "soft") ↔ (job2.subtitleMode = "soft")) →
      jobCmd job1 = jobCmd job2)
    ∧ (∀ (job : Job) (s : String), job.subtitleName = some s → job.subtitleMode ≠ "hard" →
      ContainsSeq (jobCmd job) ["-c:s", "mov_text", "-metadata:s:s:0", "language=eng"]) := by
  constructor
  · intro job1 job2 hid haud hsub hhard hsoft
    cases hsub2 : job2.subtitleName with
    | none =>
      rw [jobCmd_none_shape job1 (hsub.trans hsub2), jobCmd_none_shape job2 hsub2]
      simp [audioPathOf, outputPathOf, allocPath, hid, haud]
    | some s =>
      by_cases h2hard : job2.subtitleMode = "hard"
      · rw [jobCmd_hard_shape job1 s (hsub.trans hsub2) (hhard.mpr h2hard),
          jobCmd_hard_shape job2 s hsub2 h2hard]
        simp [audioPathOf, outputPathOf, allocPath, hid, haud]
      · by_cases h2soft : job2.subtitleMode = "soft"
        · rw [jobCmd_soft_shape job1 s (hsub.trans hsub2) (hsoft.mpr h2soft),
            jobCmd_soft_shape job2 s hsub2 h2soft]
          simp [audioPathOf, outputPathOf, allocPath, hid, haud]
        · rw [jobCmd_other_shape job1 s (hsub.trans hsub2)
              (fun h => h2hard (hhard.mp h)) (fun h => h2soft (hsoft.mp h)),
            jobCmd_other_shape job2 s hsub2 h2hard h2soft]
          simp [audioPathOf, outputPathOf, allocPath, hid, haud]
  · exact fun job s h1 hh => jobCmd_soft_chunk_of_not_hard job s h1 hh

/-- Witness for the amended C10 at concrete jobs: a job with the unconstrained
mode `x` gets the soft codec chunk, and two jobs agreeing on both tests get the
same vector. -/
theorem mode_dependence_amended_witness :
    jobCmd ⟨"j", "a.aac", some "s.srt", "soft"⟩ = jobCmd ⟨"j", "a.aac", some "s.srt", "soft"⟩
      ∧ ContainsSeq (jobCmd ⟨"j", "a.aac", some "s.srt", "x"⟩)
          ["-c:s", "mov_text", "-metadata:s:s:0", "language=eng"] :=
  ⟨mode_dependence_amended.1 _ _ rfl rfl rfl Iff.rfl Iff.rfl,
   mode_dependence_amended.2 ⟨"j", "a.aac", some "s.srt", "x"⟩ "s.srt" rfl (by decide)⟩

/-! ### Orchestrator projection lemmas -/

/-- The cleanup list after the transcode stage: the saved inputs plus the output path. -/
theorem runTranscodeStage_filesToClean (job : Job) (sc : Scenario) (fs created : List String)
    (ftc : List (Option String)) :
    (runTranscodeStage job sc fs created ftc).filesToClean =
      ftc ++ [some (outputPathOf job)] := by
  unfold runTranscodeStage
  split <;> split <;> rfl

/-- The created paths after the transcode stage: the saved inputs, plus the output
path when ffmpeg created it. -/
theorem runTranscodeStage_created (job : Job) (sc : Scenario) (fs created : List String)
    (ftc : List (Option String)) :
    (runTranscodeStage job sc fs created ftc).created =
      if sc.outputCreated then created ++ [outputPathOf job] else created := by
  unfold runTranscodeStage
  split <;> split <;> simp_all

/-- The response after the transcode stage. -/
theorem runTranscodeStage_response (job : Job) (sc : Scenario) (fs created : List String)
    (ftc : List (Option String)) :
    (runTranscodeStage job sc fs created ftc).response =
      if sc.exitCode ≠ 0 then
        Response.httpError 500 ("FFmpeg conversion failed: " ++ strip sc.stderrText)
      else
        Response.fileResponse (outputPathOf job) "video/mp4"
          ("converted_" ++ stem job.audioName ++ ".mp4")
          (ftc ++ [some (outputPathOf job)]) := by
  unfold runTranscodeStage
  split <;> split <;> simp_all

/-- The filesystem after the transcode stage: the output is written when ffmpeg
created it, and on failure the cleanup runs before the error is surfaced. -/
theorem runTranscodeStage_fs (job : Job) (sc : Scenario) (fs created : List String)
    (ftc : List (Option String)) :
    (runTranscodeStage job sc fs created ftc).fs =
      if sc.exitCode ≠ 0 then
        runCleanup (ftc ++ [some (outputPathOf job)])
          (if sc.outputCreated then insertPath (outputPathOf job) fs else fs)
      else (if sc.outputCreated then insertPath (outputPathOf job) fs else fs) := by
  unfold runTranscodeStage
  split <;> split <;> simp_all

/-- A path listed for cleanup is gone after `runCleanup`. -/
theorem runCleanup_not_mem (paths : List (Option String)) (fs : List String) (p : String)
    (h : some p ∈ paths) : p ∉ runCleanup paths fs :=
  fun hm => ((runCleanup_mem paths fs p).mp hm).2 h

/-- Inserting a path puts it in the filesystem. -/
theorem mem_insertPath_self (p : String) (fs : List String) : p ∈ insertPath p fs := by
  unfold insertPath
  split
  · assumption
  · exact List.mem_cons_self p fs

/-- Inserting a path keeps every existing path. -/
theorem mem_insertPath_of_mem (q p : String) (fs : List String) (h : q ∈ fs) :
    q ∈ insertPath p fs := by
  unfold insertPath
  split
  · exact h
  · exact List.mem_cons_of_mem p h

/-! ### Claims about cleanup and the failure branch -/

/-- C2: cleanup never raises; it deletes each listed path that exists and silently
no-ops on null entries and on paths that do not exist, so the surviving
filesystem is exactly the prior one minus the listed paths. -/
theorem cleanup_deletes_existing_never_raises (paths : List (Option String)) (fs : List String) :
    ∃ fs2, cleanup_files paths fs = Except.ok fs2 ∧
      ∀ q, q ∈ fs2 ↔ (q ∈ fs ∧ some q ∉ paths) :=
  cleanup_files_spec paths fs

/-- C1 fails as stated, in both directions. With successful saves and a failed
transcode that never wrote the output file, the FAILED-branch cleanup is passed
the output scratch path even though it was never created on disk. And with an
audio save that raises in `f.write` after `open()` already created the
destination, the created audio scratch file is absent from the cleanup list and
is still on disk after the FAILED-branch cleanup runs — a leaked created path. -/
theorem failed_cleanup_set_counterexample :
    ((convert_to_mp4_with_subtitles ⟨"j", "a.aac", none, "hard"⟩
        ⟨SaveResult.ok, SaveResult.ok, "", 1, "boom", false⟩ []).response.isError = true
      ∧ some (allocPath "j" "output.mp4") ∈
          (convert_to_mp4_with_subtitles ⟨"j", "a.aac", none, "hard"⟩
            ⟨SaveResult.ok, SaveResult.ok, "", 1, "boom", false⟩ []).filesToClean
      ∧ allocPath "j" "output.mp4" ∉
          (convert_to_mp4_with_subtitles ⟨"j", "a.aac", none, "hard"⟩
            ⟨SaveResult.ok, SaveResult.ok, "", 1, "boom", false⟩ []).created)
    ∧ ((convert_to_mp4_with_subtitles ⟨"j", "a.aac", none, "hard"⟩
        ⟨SaveResult.failAfterCreate, SaveResult.ok, "No space left on device", 0, "",
          false⟩ []).response.isError = true
      ∧ allocPath "j" "a.aac" ∈
          (convert_to_mp4_with_subtitles ⟨"j", "a.aac", none, "hard"⟩
            ⟨SaveResult.failAfterCreate, SaveResult.ok, "No space left on device", 0, "",
              false⟩ []).created
      ∧ some (allocPath "j" "a.aac") ∉
          (convert_to_mp4_with_subtitles ⟨"j", "a.aac", none, "hard"⟩
            ⟨SaveResult.failAfterCreate, SaveResult.ok, "No space left on device", 0, "",
              false⟩ []).filesToClean
      ∧ allocPath "j" "a.aac" ∈
          (convert_to_mp4_with_subtitles ⟨"j", "a.aac", none, "hard"⟩
            ⟨SaveResult.failAfterCreate, SaveResult.ok, "No space left on device", 0, "",
              false⟩ []).fs) := by
  decide

/-- C1 amended: on the FAILED branch, every path passed to cleanup is either a
scratch path created before the failure or the output path (which is passed even
when the failed transcode never created it — harmless, since cleanup skips
missing paths); and the cleanup list contains every input path whose save ran to
completion. A file created by a save that raised between `open()` creating the
destination and the `files_to_clean.append` is not in the list and is leaked. -/
theorem failed_cleanup_set_amended (job : Job) (sc : Scenario) (fs0 : List String)
    (_hfail : (convert_to_mp4_with_subtitles job sc fs0).response.isError = true) :
    (∀ q ∈ (convert_to_mp4_with_subtitles job sc fs0).filesToClean,
        q = some (outputPathOf job)
          ∨ ∃ p ∈ (convert_to_mp4_with_subtitles job sc fs0).created, q = some p)
    ∧ (sc.audioSave = SaveResult.ok →
        some (audioPathOf job) ∈ (convert_to_mp4_with_subtitles job sc fs0).filesToClean)
    ∧ (∀ s, job.subtitleName = some s → sc.audioSave = SaveResult.ok →
        sc.srtSave = SaveResult.ok →
        some (allocPath job.jobId s) ∈
          (convert_to_mp4_with_subtitles job sc fs0).filesToClean) := by
  cases hA : sc.audioSave with
  | failNoFile =>
    simp only [convert_to_mp4_with_subtitles, hA]
    exact ⟨fun q hq => absurd hq (List.not_mem_nil q),
      fun h => absurd h (by decide),
      fun s hs h hsrt => absurd h (by decide)⟩
  | failAfterCreate =>
    simp only [convert_to_mp4_with_subtitles, hA]
    exact ⟨fun q hq => absurd hq (List.not_mem_nil q),
      fun h => absurd h (by decide),
      fun s hs h hsrt => absurd h (by decide)⟩
  | ok =>
    cases hsub : job.subtitleName with
    | none =>
      simp only [convert_to_mp4_with_subtitles, hA, hsub]
      rw [runTranscodeStage_created, runTranscodeStage_filesToClean]
      refine ⟨?_, fun _ => by simp, fun s hs => absurd hs (by simp)⟩
      by_cases hO : sc.outputCreated = true
      · simp only [hO, if_true]
        intro q hq
        rcases List.mem_append.mp hq with h | h
        · exact Or.inr ⟨audioPathOf job, by simp, by simpa using h⟩
        · exact Or.inl (by simpa using h)
      · simp only [hO, if_false, Bool.false_eq_true]
        intro q hq
        rcases List.mem_append.mp hq with h | h
        · exact Or.inr ⟨audioPathOf job, by simp, by simpa using h⟩
        · exact Or.inl (by simpa using h)
    | some sname =>
      cases hS : sc.srtSave with
      | failNoFile =>
        simp only [convert_to_mp4_with_subtitles, hA, hsub, hS]
        refine ⟨?_, fun _ => by simp,
          fun s hs h hsrt => absurd hsrt (by decide)⟩
        intro q hq
        simp only [List.mem_singleton] at hq
        exact Or.inr ⟨audioPathOf job, by simp, hq⟩
      | failAfterCreate =>
        simp only [convert_to_mp4_with_subtitles, hA, hsub, hS]
        refine ⟨?_, fun _ => by simp,
          fun s hs h hsrt => absurd hsrt (by decide)⟩
        intro q hq
        simp only [List.mem_singleton] at hq
        exact Or.inr ⟨audioPathOf job, by simp, hq⟩
      | ok =>
        simp only [convert_to_mp4_with_subtitles, hA, hsub, hS]
        rw [runTranscodeStage_created, runTranscodeStage_filesToClean]
        refine ⟨?_, fun _ => by simp, ?_⟩
        · by_cases hO : sc.outputCreated = true
          · simp only [hO, if_true]
            intro q hq
            rcases List.mem_append.mp hq with h | h
            · rcases (by simpa using h :
                  q = some (audioPathOf job) ∨ q = some (allocPath job.jobId sname))
                with rfl | rfl
              · exact Or.inr ⟨audioPathOf job, by simp, rfl⟩
              · exact Or.inr ⟨allocPath job.jobId sname, by simp, rfl⟩
            · exact Or.inl (by simpa using h)
          · simp only [hO, if_false, Bool.false_eq_true]
            intro q hq
            rcases List.mem_append.mp hq with h | h
            · rcases (by simpa using h :
                  q = some (audioPathOf job) ∨ q = some (allocPath job.jobId sname))
                with rfl | rfl
              · exact Or.inr ⟨audioPathOf job, by simp, rfl⟩
              · exact Or.inr ⟨allocPath job.jobId sname, by simp, rfl⟩
            · exact Or.inl (by simpa using h)
        · intro s hs _ _
          obtain rfl : sname = s := by injection hs
          simp

/-- Witness for the amended C1 at a concrete failed job with both uploads saved:
the cleanup list is covered by created paths plus the output path, and contains
both fully saved inputs. -/
theorem failed_cleanup_set_amended_witness :
    (∀ q ∈ (convert_to_mp4_with_subtitles ⟨"j", "a.aac", some "s.srt", "hard"⟩
        ⟨SaveResult.ok, SaveResult.ok, "", 1, "boom", false⟩ []).filesToClean,
      q = some (outputPathOf ⟨"j", "a.aac", some "s.srt", "hard"⟩)
        ∨ ∃ p ∈ (convert_to_mp4_with_subtitles ⟨"j", "a.aac", some "s.srt", "hard"⟩
            ⟨SaveResult.ok, SaveResult.ok, "", 1, "boom", false⟩ []).created, q = some p)
    ∧ some (audioPathOf ⟨"j", "a.aac", some "s.srt", "hard"⟩) ∈
        (convert_to_mp4_with_subtitles ⟨"j", "a.aac", some "s.srt", "hard"⟩
          ⟨SaveResult.ok, SaveResult.ok, "", 1, "boom", false⟩ []).filesToClean
    ∧ some (allocPath "j" "s.srt") ∈
        (convert_to_mp4_with_subtitles ⟨"j", "a.aac", some "s.srt", "hard"⟩
          ⟨SaveResult.ok, SaveResult.ok, "", 1, "boom", false⟩ []).filesToClean :=
  ⟨(failed_cleanup_set_amended ⟨"j", "a.aac", some "s.srt", "hard"⟩
      ⟨SaveResult.ok, SaveResult.ok, "", 1, "boom", false⟩ [] (by decide)).1,
   (failed_cleanup_set_amended ⟨"j", "a.aac", some "s.srt", "hard"⟩
      ⟨SaveResult.ok, SaveResult.ok, "", 1, "boom", false⟩ [] (by decide)).2.1 rfl,
   (failed_cleanup_set_amended ⟨"j", "a.aac", some "s.srt", "hard"⟩
      ⟨SaveResult.ok, SaveResult.ok, "", 1, "boom", false⟩ [] (by decide)).2.2
     "s.srt" rfl rfl rfl⟩

/-- C7: when the external process exits non-zero on a job whose uploads were all
saved, the endpoint returns a 500 whose detail is a fixed prefix followed by the
decoded-and-stripped stderr text (so the detail contains the trimmed diagnostic
text), every path passed to cleanup is gone from the filesystem before the error
is surfaced, and no file response is returned. -/
theorem nonzero_exit_500_cleanup_first (job : Job) (sc : Scenario) (fs0 : List String)
    (hA : sc.audioSave = SaveResult.ok)
    (hS : job.subtitleName = none ∨ sc.srtSave = SaveResult.ok)
    (hE : sc.exitCode ≠ 0) :
    (convert_to_mp4_with_subtitles job sc fs0).response =
        Response.httpError 500 ("FFmpeg conversion failed: " ++ strip sc.stderrText)
      ∧ (∃ pre suf, ("FFmpeg conversion failed: " ++ strip sc.stderrText) =
          pre ++ strip sc.stderrText ++ suf)
      ∧ (∀ p, some p ∈ (convert_to_mp4_with_subtitles job sc fs0).filesToClean →
          p ∉ (convert_to_mp4_with_subtitles job sc fs0).fs) := by
  have hcontained : ∃ pre suf, ("FFmpeg conversion failed: " ++ strip sc.stderrText) =
      pre ++ strip sc.stderrText ++ suf :=
    ⟨"FFmpeg conversion failed: ", "", by simp⟩
  cases hsub : job.subtitleName with
  | none =>
    simp only [convert_to_mp4_with_subtitles, hA, hsub]
    rw [runTranscodeStage_response, runTranscodeStage_fs, runTranscodeStage_filesToClean]
    simp only [if_pos hE]
    exact ⟨trivial, hcontained, fun p hp => runCleanup_not_mem _ _ p hp⟩
  | some sname =>
    have hS2 : sc.srtSave = SaveResult.ok := by
      rcases hS with h | h
      · rw [hsub] at h; exact absurd h (by simp)
      · exact h
    simp only [convert_to_mp4_with_subtitles, hA, hsub, hS2]
    rw [runTranscodeStage_response, runTranscodeStage_fs, runTranscodeStage_filesToClean]
    simp only [if_pos hE]
    exact ⟨trivial, hcontained, fun p hp => runCleanup_not_mem _ _ p hp⟩

/-- Witness for C7 at a concrete failed job (stderr text ` boom ` is stripped). -/
theorem nonzero_exit_500_cleanup_first_witness :
    (convert_to_mp4_with_subtitles ⟨"j", "a.aac", none, "hard"⟩
        ⟨SaveResult.ok, SaveResult.ok, "", 1, " boom ", false⟩ []).response =
        Response.httpError 500 ("FFmpeg conversion failed: " ++ strip " boom ")
      ∧ (∃ pre suf, ("FFmpeg conversion failed: " ++ strip " boom ") =
          pre ++ strip " boom " ++ suf)
      ∧ (∀ p, some p ∈ (convert_to_mp4_with_subtitles ⟨"j", "a.aac", none, "hard"⟩
            ⟨SaveResult.ok, SaveResult.ok, "", 1, " boom ", false⟩ []).filesToClean →
          p ∉ (convert_to_mp4_with_subtitles ⟨"j", "a.aac", none, "hard"⟩
            ⟨SaveResult.ok, SaveResult.ok, "", 1, " boom ", false⟩ []).fs) :=
  nonzero_exit_500_cleanup_first ⟨"j", "a.aac", none, "hard"⟩
    ⟨SaveResult.ok, SaveResult.ok, "", 1, " boom ", false⟩ [] rfl (Or.inl rfl) (by decide)

/-- C8: when the external process exits 0 on a job whose uploads were all saved,
the endpoint returns a file response for the output path with media type
`video/mp4` and download filename `converted_` plus the stem of the audio upload
name plus `.mp4`, whose background cleanup task covers all of the jobs paths
(inputs and output); the cleanup is deferred — every path created during the run
is still on disk when the handler returns. -/
theorem success_fileresponse_deferred_cleanup (job : Job) (sc : Scenario) (fs0 : List String)
    (hA : sc.audioSave = SaveResult.ok)
    (hS : job.subtitleName = none ∨ sc.srtSave = SaveResult.ok)
    (hE : sc.exitCode = 0) :
    (convert_to_mp4_with_subtitles job sc fs0).response =
        Response.fileResponse (outputPathOf job) "video/mp4"
          ("converted_" ++ stem job.audioName ++ ".mp4") (jobCleanupList job)
      ∧ (convert_to_mp4_with_subtitles job sc fs0).filesToClean = jobCleanupList job
      ∧ (∀ p ∈ (convert_to_mp4_with_subtitles job sc fs0).created,
          p ∈ (convert_to_mp4_with_subtitles job sc fs0).fs) := by
  have hE2 : ¬ sc.exitCode ≠ 0 := by simp [hE]
  cases hsub : job.subtitleName with
  | none =>
    simp only [convert_to_mp4_with_subtitles, hA, hsub]
    rw [runTranscodeStage_response, runTranscodeStage_fs, runTranscodeStage_filesToClean,
      runTranscodeStage_created]
    simp only [hE2, ite_false, if_neg]
    refine ⟨by simp [jobCleanupList, hsub], by simp [jobCleanupList, hsub], ?_⟩
    intro p hp
    by_cases hO : sc.outputCreated = true
    · simp only [hO, if_true] at hp ⊢
      rcases List.mem_append.mp hp with h | h
      · obtain rfl : p = audioPathOf job := by simpa using h
        exact mem_insertPath_of_mem _ _ _ (mem_insertPath_self _ _)
      · obtain rfl : p = outputPathOf job := by simpa using h
        exact mem_insertPath_self _ _
    · simp only [hO, if_false, Bool.false_eq_true] at hp ⊢
      obtain rfl : p = audioPathOf job := by simpa using hp
      exact mem_insertPath_self _ _
  | some sname =>
    have hS2 : sc.srtSave = SaveResult.ok := by
      rcases hS with h | h
      · rw [hsub] at h; exact absurd h (by simp)
      · exact h
    simp only [convert_to_mp4_with_subtitles, hA, hsub, hS2]
    rw [runTranscodeStage_response, runTranscodeStage_fs, runTranscodeStage_filesToClean,
      runTranscodeStage_created]
    simp only [hE2, ite_false, if_neg]
    refine ⟨by simp [jobCleanupList, hsub], by simp [jobCleanupList, hsub], ?_⟩
    intro p hp
    by_cases hO : sc.outputCreated = true
    · simp only [hO, if_true] at hp ⊢
      rcases List.mem_append.mp hp with h | h
      · rcases (by simpa using h : p = audioPathOf job ∨ p = allocPath job.jobId sname)
          with rfl | rfl
        · exact mem_insertPath_of_mem _ _ _
            (mem_insertPath_of_mem _ _ _ (mem_insertPath_self _ _))
        · exact mem_insertPath_of_mem _ _ _ (mem_insertPath_self _ _)
      · obtain rfl : p = outputPathOf job := by simpa using h
        exact mem_insertPath_self _ _
    · simp only [hO, if_false, Bool.false_eq_true] at hp ⊢
      rcases (by simpa using hp : p = audioPathOf job ∨ p = allocPath job.jobId sname)
        with rfl | rfl
      · exact mem_insertPath_of_mem _ _ _ (mem_insertPath_self _ _)
      · exact mem_insertPath_self _ _

/-- Witness for C8 at a concrete successful job. -/
theorem success_fileresponse_deferred_cleanup_witness :
    (convert_to_mp4_with_subtitles ⟨"j", "a.aac", some "s.srt", "soft"⟩
        ⟨SaveResult.ok, SaveResult.ok, "", 0, "", true⟩ []).response =
        Response.fileResponse (outputPathOf ⟨"j", "a.aac", some "s.srt", "soft"⟩) "video/mp4"
          ("converted_" ++ stem "a.aac" ++ ".mp4")
          (jobCleanupList ⟨"j", "a.aac", some "s.srt", "soft"⟩)
      ∧ (convert_to_mp4_with_subtitles ⟨"j", "a.aac", some "s.srt", "soft"⟩
          ⟨SaveResult.ok, SaveResult.ok, "", 0, "", true⟩ []).filesToClean =
          jobCleanupList ⟨"j", "a.aac", some "s.srt", "soft"⟩
      ∧ (∀ p ∈ (convert_to_mp4_with_subtitles ⟨"j", "a.aac", some "s.srt", "soft"⟩
            ⟨SaveResult.ok, SaveResult.ok, "", 0, "", true⟩ []).created,
          p ∈ (convert_to_mp4_with_subtitles ⟨"j", "a.aac", some "s.srt", "soft"⟩
            ⟨SaveResult.ok, SaveResult.ok, "", 0, "", true⟩ []).fs) :=
  success_fileresponse_deferred_cleanup ⟨"j", "a.aac", some "s.srt", "soft"⟩
    ⟨SaveResult.ok, SaveResult.ok, "", 0, "", true⟩ [] rfl (Or.inr rfl) rfl

end FfmpegForN8n
